import Mathlib

/-!
Verification of the hy-chain node core against its specification.

The development shallowly embeds the TypeScript sources:

* byte buffers (`Buffer`) become `List Nat` with values below 256;
* JS 32-bit bitwise arithmetic (`|`, `<<`, `>>>`) is modelled on `Int`/`Nat`
  with explicit reductions modulo `2^32` (`toUint32`, `toInt32`);
* stateful objects (`BufferReader`, `HashEntity`, the in-memory storage)
  become records threaded explicitly, and fallible operations return
  `Except Err`;
* external primitives that the repository merely calls (node:crypto hashes,
  ciphers and signers, the host JSON codec, base64) are parameters of the
  embedded functions; theorems assume only their documented contracts and the
  witnesses instantiate them with concrete functions satisfying the contract.

While-loops whose bound is data dependent are compiled with an explicit fuel
argument so that every definition reduces inside the kernel; each such
definition documents why the chosen fuel is sufficient.
-/

/-- Byte sequences: the contents of a JS `Buffer`, one `Nat` (< 256) per byte. -/
abbrev Bytes := List Nat

/-- Structured error identities of the repository (errors.ts `ERROR_CODE`), plus
`jsTypeError`, which models a host-level `TypeError` crash (not a
`HyChainException`). -/
inductive Err where
  | unknownError
  | invalidChunk
  | resourceDisposed
  | endOfStream
  | unsupportedOperation
  | notImplemented
  | invalidArgument
  | tokenCancelled
  | cryptoKeyShort
  | magicNumberMissmatch
  | invalidBitflag
  | streamClosed
  | invalidType
  | missingObject
  | jsTypeError
  deriving DecidableEq

/-- JS `ToUint32` for integral numbers. -/
def toUint32 (z : Int) : Nat := (z % (2 ^ 32 : Int)).toNat

/-- JS `ToInt32` for integral numbers. -/
def toInt32 (z : Int) : Int :=
  if toUint32 z < 2 ^ 31 then (toUint32 z : Int) else (toUint32 z : Int) - 2 ^ 32

/-- JS bitwise or `x | y`: both operands reduced to 32 bits, result signed. -/
def jsOr (a b : Int) : Int :=
  toInt32 (Int.ofNat (Nat.lor (toUint32 a) (toUint32 b)))

/-- JS left shift `x << n`: shift count masked to 5 bits, result signed 32-bit. -/
def jsShl (a : Int) (n : Nat) : Int :=
  toInt32 (Int.ofNat ((toUint32 a <<< (n % 32)) % 2 ^ 32))

/-- A JS `number` argument as far as `BufferReader.read` inspects it: an integral
value, or some non-integral number (only its non-integrality matters). -/
inductive JSNum where
  | int (n : Int)
  | nonInt
  deriving DecidableEq

/-- BufferReader state (protocol.ts:81-175).  `data = none` models the JS `null`
that the no-argument `read` branch and `dispose` assign to `#data`. -/
structure BufferReader where
  data : Option Bytes
  cursor : Int
  total : Int
  disposed : Bool
  deriving DecidableEq

/-- The `BufferReader` constructor (protocol.ts:90-93). -/
def BufferReader.ofBytes (d : Bytes) : BufferReader :=
  ⟨some d, 0, (d.length : Int), false⟩

/-- `BufferReader.read` (protocol.ts:126-154).  The `assertUnsignedInteger` guard
comes from the external package `@rapid-d-kit/safe`; modelled from the spec: it
rejects negative or non-integral lengths with ERR_INVALID_ARGUMENT.  When
`data` is `none` the JS source dereferences `this.#data.byteLength`, which
crashes with a host `TypeError`; this is modelled by `Err.jsTypeError`. -/
def BufferReader.read (r : BufferReader) (len : Option JSNum) :
    Except Err (Bytes × BufferReader) :=
  if r.disposed then .error .resourceDisposed
  else
    match r.data with
    | none => .error .jsTypeError
    | some d =>
      if (d.length : Int) ≤ r.cursor then .error .endOfStream
      else
        match len with
        | none =>
          .ok (d.drop r.cursor.toNat,
            { r with cursor := (d.length : Int), data := none })
        | some .nonInt => .error .invalidArgument
        | some (.int n) =>
          if n < 0 then .error .invalidArgument
          else
            let l := min n.toNat (d.length - r.cursor.toNat)
            .ok ((d.drop r.cursor.toNat).take l, { r with cursor := r.cursor + (l : Int) })

/-- The `byteLength` getter of `BufferReader` (protocol.ts:105-108). -/
def BufferReader.byteLengthE (r : BufferReader) : Except Err Int :=
  if r.disposed then .error .resourceDisposed else .ok r.total

/-- `BufferReader.dispose` (protocol.ts:156-168). -/
def BufferReader.disposeR (r : BufferReader) : BufferReader :=
  if r.disposed then r else ⟨none, -1, -1, true⟩

/-- HashEntity state (hash.ts:18-85): a `BufferReader` over the digest bytes plus
a disposal flag. -/
structure HashEntity where
  content : BufferReader
  disposed : Bool
  deriving DecidableEq

/-- The `HashEntity` constructor (hash.ts:22-24). -/
def HashEntity.ofBytes (src : Bytes) : HashEntity :=
  ⟨BufferReader.ofBytes src, false⟩

/-- `HashEntity.byteLength` (hash.ts:26-29). -/
def HashEntity.byteLength (h : HashEntity) : Except Err Int :=
  if h.disposed then .error .resourceDisposed else h.content.byteLengthE

/-- `HashEntity.buffer` (hash.ts:52-55): a no-argument read of the content. -/
def HashEntity.buffer (h : HashEntity) : Except Err (Bytes × HashEntity) :=
  if h.disposed then .error .resourceDisposed
  else (h.content.read none).map fun p => (p.1, ⟨p.2, h.disposed⟩)

/-- `HashEntity.bytes` (hash.ts:47-50): also a no-argument read. -/
def HashEntity.bytes (h : HashEntity) : Except Err (Bytes × HashEntity) :=
  h.buffer

/-- `HashEntity.digest` (hash.ts:42-45) re-encodes the no-argument read as text;
the text encoding is an injective re-encoding of the bytes and is abstracted
away, so the model returns the bytes themselves. -/
def HashEntity.digestBytes (h : HashEntity) : Except Err (Bytes × HashEntity) :=
  h.buffer

/-- `HashEntity.arrayBuffer` (hash.ts:57-66): reads `byteLength`, then performs a
no-argument read. -/
def HashEntity.arrayBuffer (h : HashEntity) : Except Err (Bytes × HashEntity) :=
  if h.disposed then .error .resourceDisposed
  else
    match h.content.byteLengthE with
    | .error e => .error e
    | .ok _ => (h.content.read none).map fun p => (p.1, ⟨p.2, h.disposed⟩)

/-- `HashEntity.read` (hash.ts:68-71). -/
def HashEntity.readE (h : HashEntity) (len : Option JSNum) :
    Except Err (Bytes × HashEntity) :=
  if h.disposed then .error .resourceDisposed
  else (h.content.read len).map fun p => (p.1, ⟨p.2, h.disposed⟩)

/-- Loop body of `writeInt32VQL` (protocol.ts:220-241): emit base-128 digits of
the unsigned 32-bit value, little endian, with the continuation bit 0x80 on
every byte that has a successor.  `value & 127` is `u % 128` and
`value >>> 7` is `u / 128` on the unsigned 32-bit value.  The fuel `u` is
sufficient because `u / 128 < u` for `0 < u`. -/
def vqlCoreF : Nat → Nat → Bytes
  | 0, _ => []
  | fuel + 1, u =>
    if u = 0 then []
    else (u % 128 + if 0 < u / 128 then 128 else 0) :: vqlCoreF fuel (u / 128)

/-- Digit loop of `writeInt32VQL` with its sufficient fuel. -/
def vqlCore (u : Nat) : Bytes := vqlCoreF u u

/-- `writeInt32VQL` (protocol.ts:220-241) at the byte level: the written bytes.
For `value === 0` (and in general whenever the unsigned 32-bit reduction is 0,
in which case the JS loop emits a single zero byte) the output is `[0]`. -/
def writeInt32VQL (v : Int) : Bytes :=
  if toUint32 v = 0 then [0] else vqlCore (toUint32 v)

/-- `readIntVQL` (protocol.ts:206-216), over the remaining bytes of the reader
(each `reader.read(1)` takes the head byte, or fails with ERR_END_OF_STREAM on
an exhausted reader).  The accumulator `value |= (b & 127) << n` uses JS signed
32-bit arithmetic. -/
def readIntVQLAux : Bytes → Nat → Int → Except Err (Int × Bytes)
  | [], _, _ => .error .endOfStream
  | b :: rest, n, value =>
    let v2 := jsOr value (jsShl (Int.ofNat (b &&& 127)) n)
    if b &&& 128 = 0 then .ok (v2, rest)
    else readIntVQLAux rest (n + 7) v2

/-- `readIntVQL` entry point: shift 0, accumulator 0. -/
def readIntVQL (l : Bytes) : Except Err (Int × Bytes) := readIntVQLAux l 0 0

/-- `BufferReader.read` with an integral argument, expressed on the remaining
bytes of a live reader: ERR_END_OF_STREAM when already exhausted, then the
unsigned-integer guard, then `min` with the remaining length (protocol.ts:
129-153).  `readerRead_ok_int` below proves this is exactly what
`BufferReader.read` does on a live reader. -/
def listRead (l : Bytes) (k : Int) : Except Err (Bytes × Bytes) :=
  if l.isEmpty then .error .endOfStream
  else if k < 0 then .error .invalidArgument
  else .ok (l.take k.toNat, l.drop k.toNat)

/-- Marshalled envelope values (part_002 `Marshalling.MarshallObject`): Binary
holds the base64 payload string, String/Date hold their strings, Object/Array
nest.  The `Decimal` variant (non-integral floating point) is outside the
modelled universe, and `Symbol` is not part of the source's `MarshallObject`
union at all.  Strings are identified with their UTF-8 bytes. -/
inductive MObj where
  | mbin (b64 : Bytes)
  | mstr (s : Bytes)
  | mint (n : Int)
  | mbool (b : Bool)
  | mnull
  | mobj (fields : List (Bytes × MObj))
  | marr (xs : List MObj)
  | mdate (iso : Bytes)

/-- JS runtime values as far as the wire codec (protocol.ts:244-376) inspects
them.  Strings are identified with their UTF-8 bytes (exact for well-formed
Unicode text: `Buffer.from(string)` and `buffer.toString()` are mutually
inverse there), numbers are modelled by their integral value.  `vobj` is an
opaque handle for a generic JSON-serializable object (serialized through the
host JSON codec, which is a parameter).  `vbool`, `vdict` and `vdate` arise as
outputs of marshalling revival. -/
inductive JSValue where
  | vnull
  | vundef
  | vstr (s : Bytes)
  | vbuf (b : Bytes)
  | vnum (n : Int)
  | varr (xs : List JSValue)
  | vmarshal (m : MObj)
  | vobj (g : Nat)
  | vbool (b : Bool)
  | vdict (fields : List (Bytes × JSValue))
  | vdate (ms : Int)

/-- External primitives used by the codec, all outside the repository: the host
JSON codec (`jsonSafeStringify` / `jsonSafeParser` wrap `JSON.stringify` /
`JSON.parse`; safe-json.ts itself is not under src/), base64 decoding
(`Buffer.from(s, "base64")`, never-throwing), and ISO-8601 date parsing and
formatting (`new Date(iso)` — `none` models an invalid date — and
`Date.prototype.toISOString`).  `stringifyM`/`parseM` are the JSON codec
applied to a marshalled envelope, `stringifyJson`/`parseJson` the JSON codec
applied to a plain JSON-serializable value. -/
structure Codec where
  stringifyM : MObj → Bytes
  parseM : Bytes → Except Err MObj
  stringifyJson : JSValue → Bytes
  parseJson : Bytes → Except Err JSValue
  b64decode : Bytes → Bytes
  dateParse : Bytes → Option Int
  dateISO : Int → Bytes

mutual

/-- `Marshalling.revive` (part_002:205-239): Binary decodes base64 to a buffer,
Date parses the ISO string and fails with ERR_INVALID_TYPE when invalid,
Object and Array revive recursively. -/
def reviveV (C : Codec) : MObj → Except Err JSValue
  | .mbin s => .ok (.vbuf (C.b64decode s))
  | .mstr s => .ok (.vstr s)
  | .mint n => .ok (.vnum n)
  | .mbool b => .ok (.vbool b)
  | .mnull => .ok .vnull
  | .mdate iso =>
    match C.dateParse iso with
    | none => .error .invalidType
    | some ms => .ok (.vdate ms)
  | .mobj fields => do
    let fs ← reviveFields C fields
    .ok (.vdict fs)
  | .marr xs => do
    let ys ← reviveList C xs
    .ok (.varr ys)

/-- Elementwise revival of a marshalled array (`object.value.map(revive)`). -/
def reviveList (C : Codec) : List MObj → Except Err (List JSValue)
  | [] => .ok []
  | x :: xs => do
    let y ← reviveV C x
    let ys ← reviveList C xs
    .ok (y :: ys)

/-- Fieldwise revival of a marshalled object (`Object.fromEntries(... revive)`). -/
def reviveFields (C : Codec) : List (Bytes × MObj) → Except Err (List (Bytes × JSValue))
  | [] => .ok []
  | (k, v) :: xs => do
    let y ← reviveV C v
    let ys ← reviveFields C xs
    .ok ((k, y) :: ys)

end

mutual

/-- `serialize` (protocol.ts:244-316) at the byte level: the bytes the writer
accumulates.  The dispatch order of the source if-chain — null/absent, string,
byte buffer, integer with `(data | 0) === data`, array, marshalled envelope
(`$mid` present), JSON fallback — is reproduced case by case; the constructors
of `JSValue` make the branches disjoint.  `vbool`, `vdict` and `vdate` are
plain objects without `$mid` for the source and therefore take the JSON
fallback (case G). -/
def serializeV (C : Codec) : JSValue → Bytes
  | .vnull => [0]
  | .vundef => [0]
  | .vstr s => 1 :: (writeInt32VQL (s.length : Int) ++ s)
  | .vbuf b => 6 :: (writeInt32VQL (b.length : Int) ++ b)
  | .vnum n =>
    if toInt32 n = n then 2 :: writeInt32VQL n
    else 3 :: (writeInt32VQL ((C.stringifyJson (.vnum n)).length : Int) ++ C.stringifyJson (.vnum n))
  | .varr xs => 4 :: (writeInt32VQL (xs.length : Int) ++ serializeList C xs)
  | .vmarshal m => 5 :: (writeInt32VQL ((C.stringifyM m).length : Int) ++ C.stringifyM m)
  | .vobj g => 3 :: (writeInt32VQL ((C.stringifyJson (.vobj g)).length : Int) ++ C.stringifyJson (.vobj g))
  | .vbool b => 3 :: (writeInt32VQL ((C.stringifyJson (.vbool b)).length : Int) ++ C.stringifyJson (.vbool b))
  | .vdict fs => 3 :: (writeInt32VQL ((C.stringifyJson (.vdict fs)).length : Int) ++ C.stringifyJson (.vdict fs))
  | .vdate ms => 3 :: (writeInt32VQL ((C.stringifyJson (.vdate ms)).length : Int) ++ C.stringifyJson (.vdate ms))

/-- Case E of `serialize`: the elements are serialized in order into the same
writer. -/
def serializeList (C : Codec) : List JSValue → Bytes
  | [] => []
  | x :: xs => serializeV C x ++ serializeList C xs

end

/-- Loop of case E of `deserialize` (protocol.ts:339-348): read `len` elements
with the given one-element decoder. -/
def deserializeArrAux (f : Bytes → Except Err (JSValue × Bytes)) :
    Nat → Bytes → Except Err (List JSValue × Bytes)
  | 0, l => .ok ([], l)
  | k + 1, l => do
    let (v, l1) ← f l
    let (vs, l2) ← deserializeArrAux f k l1
    .ok (v :: vs, l2)

/-- `deserialize` (protocol.ts:318-376), over the remaining bytes of the reader:
read the one-byte tag (ERR_END_OF_STREAM on an exhausted reader), then branch
in the source's case order — Null, String, Uint, Buffer, Array, MarshallObject,
Object, and ERR_UNSUPPORTED_OPERATION for any other tag byte.  A negative
element count from `readIntVQL` runs the array loop zero times.  The fuel only
bounds the recursion into nested values; `deserialize` supplies more fuel than
the stream length, which is sufficient because every nested call first consumes
the one-byte tag of its value. -/
def deserializeF (C : Codec) : Nat → Bytes → Except Err (JSValue × Bytes)
  | 0, _ => .error .unknownError
  | fuel + 1, l =>
    match l with
    | [] => .error .endOfStream
    | t :: l =>
      if t = 0 then .ok (.vnull, l)
      else if t = 1 then do
        let (len, l1) ← readIntVQL l
        let (s, l2) ← listRead l1 len
        .ok (.vstr s, l2)
      else if t = 2 then do
        let (n, l1) ← readIntVQL l
        .ok (.vnum n, l1)
      else if t = 6 then do
        let (len, l1) ← readIntVQL l
        let (b, l2) ← listRead l1 len
        .ok (.vbuf b, l2)
      else if t = 4 then do
        let (len, l1) ← readIntVQL l
        let (xs, l2) ← deserializeArrAux (deserializeF C fuel) (if len < 0 then 0 else len.toNat) l1
        .ok (.varr xs, l2)
      else if t = 5 then do
        let (len, l1) ← readIntVQL l
        let (s, l2) ← listRead l1 len
        let m ← C.parseM s
        let v ← reviveV C m
        .ok (v, l2)
      else if t = 3 then do
        let (len, l1) ← readIntVQL l
        let (s, l2) ← listRead l1 len
        let v ← C.parseJson s
        .ok (v, l2)
      else .error .unsupportedOperation

/-- `deserialize` on a fresh reader over `l`, returning the decoded value. -/
def deserialize (C : Codec) (l : Bytes) : Except Err JSValue :=
  (deserializeF C (l.length + 1) l).map Prod.fst

mutual

/-- Specification-side statement of the §4.B narrowing rules for revival: the
total function computing what a marshalled envelope revives to (under the §4.B
well-formedness conditions, in particular valid dates).  It mirrors
`Marshalling.revive` with the failure cases cut off. -/
def narrowM (C : Codec) : MObj → JSValue
  | .mbin s => .vbuf (C.b64decode s)
  | .mstr s => .vstr s
  | .mint n => .vnum n
  | .mbool b => .vbool b
  | .mnull => .vnull
  | .mdate iso => .vdate ((C.dateParse iso).getD 0)
  | .mobj fields => .vdict (narrowMFields C fields)
  | .marr xs => .varr (narrowMList C xs)

/-- Elementwise `narrowM`. -/
def narrowMList (C : Codec) : List MObj → List JSValue
  | [] => []
  | x :: xs => narrowM C x :: narrowMList C xs

/-- Fieldwise `narrowM`. -/
def narrowMFields (C : Codec) : List (Bytes × MObj) → List (Bytes × JSValue)
  | [] => []
  | (k, v) :: xs => (k, narrowM C v) :: narrowMFields C xs

end

mutual

/-- Specification-side statement of the §4.B type-narrowing rules: what a value
accepted by `serialize` comes back as after `deserialize`.  Null and absent
values collapse to null, marshalled envelopes come back as their revived
runtime value, arrays narrow elementwise, and every other accepted value comes
back unchanged. -/
def narrowV (C : Codec) : JSValue → JSValue
  | .vundef => .vnull
  | .vmarshal m => narrowM C m
  | .varr xs => .varr (narrowVList C xs)
  | v => v

/-- Elementwise `narrowV`. -/
def narrowVList (C : Codec) : List JSValue → List JSValue
  | [] => []
  | x :: xs => narrowV C x :: narrowVList C xs

end

mutual

/-- Well-formedness of a marshalled envelope for the §4.B universe: dates carry
a parseable ISO string (the spec: "an invalid Date string fails with
INVALIDTYPE"). -/
def wfM (C : Codec) : MObj → Bool
  | .mdate iso => (C.dateParse iso).isSome
  | .mobj fields => wfMFields C fields
  | .marr xs => wfMList C xs
  | _ => true

/-- Elementwise `wfM`. -/
def wfMList (C : Codec) : List MObj → Bool
  | [] => true
  | x :: xs => wfM C x && wfMList C xs

/-- Fieldwise `wfM`. -/
def wfMFields (C : Codec) : List (Bytes × MObj) → Bool
  | [] => true
  | (_, v) :: xs => wfM C v && wfMFields C xs

end

mutual

/-- The universe of values accepted by `serialize` for the round-trip statement:
null/absent, strings (byte values below 256, length below 2^31 so that the VQL
length survives the signed 32-bit read), byte buffers (likewise), integral
numbers (up to the 2^53 magnitude where JS numbers are exact), arrays
(element count below 2^31, elements accepted), marshalled envelopes (whose
JSON text fits the VQL bound), and generic JSON-serializable objects
(likewise).  `vbool`, `vdict` and `vdate` are revival outputs, not members of
the accepted universe. -/
def wfV (C : Codec) : JSValue → Bool
  | .vnull => true
  | .vundef => true
  | .vstr s => decide (s.length < 2 ^ 31) && s.all (· < 256)
  | .vbuf b => decide (b.length < 2 ^ 31) && b.all (· < 256)
  | .vnum n =>
    decide (-(2 ^ 53 : Int) ≤ n) && decide (n ≤ (2 ^ 53 : Int)) &&
      (decide (toInt32 n = n) || decide ((C.stringifyJson (.vnum n)).length < 2 ^ 31))
  | .varr xs => decide (xs.length < 2 ^ 31) && wfVList C xs
  | .vmarshal m => wfM C m && decide ((C.stringifyM m).length < 2 ^ 31)
  | .vobj g => decide ((C.stringifyJson (.vobj g)).length < 2 ^ 31)
  | .vbool _ => false
  | .vdict _ => false
  | .vdate _ => false

/-- Elementwise `wfV`. -/
def wfVList (C : Codec) : List JSValue → Bool
  | [] => true
  | x :: xs => wfV C x && wfVList C xs

end

mutual

/-- Whether the serialized form of `v` ends with a non-empty final body read:
when false (an empty string, buffer or JSON text in trailing position), the
very last `reader.read(0)` of `deserialize` happens on an exhausted reader and
fails with ERR_END_OF_STREAM. -/
def serTail (C : Codec) : JSValue → Bool
  | .vstr s => !s.isEmpty
  | .vbuf b => !b.isEmpty
  | .vnum n => decide (toInt32 n = n) || !(C.stringifyJson (.vnum n)).isEmpty
  | .vmarshal m => !(C.stringifyM m).isEmpty
  | .vobj g => !(C.stringifyJson (.vobj g)).isEmpty
  | .varr xs => serTailList C xs
  | _ => true

/-- The trailing-body condition of an array: it is the condition of its last
element (an empty array ends with its VQL element count, which is fine). -/
def serTailList (C : Codec) : List JSValue → Bool
  | [] => true
  | [x] => serTail C x
  | _ :: xs => serTailList C xs

end

mutual

/-- The marshalled envelopes occurring in `v` at serialization positions: the
top-level `vmarshal` nodes, collected through arrays.  For the round-trip these
are exactly the values the host JSON codec must invert (`parseM` after
`stringifyM`). -/
def envelopes : JSValue → List MObj
  | .vmarshal m => [m]
  | .varr xs => envelopesList xs
  | _ => []

/-- Elementwise `envelopes`. -/
def envelopesList : List JSValue → List MObj
  | [] => []
  | x :: xs => envelopes x ++ envelopesList xs

end

mutual

/-- The values of `v` that `serialize` sends through the JSON fallback (case G):
non-int32 numbers and opaque generic objects, collected through arrays.  For
the round-trip these are exactly the values the host JSON codec must invert
(`parseJson` after `stringifyJson`). -/
def caseGs : JSValue → List JSValue
  | .vnum n => if toInt32 n = n then [] else [.vnum n]
  | .vobj g => [.vobj g]
  | .varr xs => caseGsList xs
  | _ => []

/-- Elementwise `caseGs`. -/
def caseGsList : List JSValue → List JSValue
  | [] => []
  | x :: xs => caseGs x ++ caseGsList xs

end

namespace MerkleTree

/-- One pairing level of `computeRoot` (hash.ts:107-125): adjacent elements are
paired; a trailing odd element is paired with itself (`findByIndex(i + 1) ??
left`); each pair is combined with `hashData(left ‖ right)`.  The hash function
`H` models `hashData` (SHA-384 via node:crypto, a one-shot digest of the
payload bytes). -/
def pairLevel (H : Bytes → Bytes) : List Bytes → List Bytes
  | [] => []
  | [x] => [H (x ++ x)]
  | x :: y :: rest => H (x ++ y) :: pairLevel H rest

/-- The `while(level.size() > 1)` loop of `computeRoot`.  The fuel equal to the
initial level size is sufficient: each iteration maps a level of size n ≥ 2 to
one of size ⌈n/2⌉ ≤ n − 1 (`computeRootIter_length` below). -/
def computeRootIter (H : Bytes → Bytes) : Nat → List Bytes → List Bytes
  | 0, level => level
  | fuel + 1, level =>
    if level.length ≤ 1 then level else computeRootIter H fuel (pairLevel H level)

/-- `MerkleTree.computeRoot` (hash.ts:99-128) at the byte level: an empty leaf
list yields `hashData("")`; otherwise the pairing loop runs until one element
is left and that element is returned. -/
def computeRoot (H : Bytes → Bytes) (hashes : List Bytes) : Bytes :=
  if hashes.length < 1 then H []
  else (computeRootIter H hashes.length hashes).headD []

/-- The chunking loop of `createRoot` (hash.ts:136-138):
`for(i = 0; i < data.length; i += 1024) chunks.push(data.subarray(i, i + 1024))`.
The fuel `data.length` is sufficient because `i` grows by 1024 each
iteration. -/
def chunkLoopAux (data : Bytes) : Nat → Nat → List Bytes
  | 0, _ => []
  | fuel + 1, i =>
    if i < data.length then (data.drop i).take 1024 :: chunkLoopAux data fuel (i + 1024)
    else []

/-- The chunk list of `createRoot` (hash.ts:133-142): the loop's chunks, or the
whole (empty) payload as a single chunk when the loop produced none. -/
def chunkChunks (data : Bytes) : List Bytes :=
  if (chunkLoopAux data data.length 0).length = 0 then [data]
  else chunkLoopAux data data.length 0

/-- The tail of `createRoot` (hash.ts:144-148): hash each chunk, then run the
pairing construction. -/
def createRootFromBytes (H : Bytes → Bytes) (data : Bytes) : Bytes :=
  computeRoot H ((chunkChunks data).map H)

/-- `MerkleTree.serializePayload` (hash.ts:89-97): `jsonSafeStringify(payload)`,
propagating its failure.  The JSON serializer is a parameter (safe-json.ts is
not part of src/; it wraps the host `JSON.stringify`). -/
def serializePayload (js : JSValue → Except Err Bytes) (payload : JSValue) :
    Except Err Bytes :=
  js payload

/-- `MerkleTree.createRoot` (hash.ts:130-149) at the byte level. -/
def createRoot (H : Bytes → Bytes) (js : JSValue → Except Err Bytes)
    (payload : JSValue) : Except Err Bytes := do
  let data ← serializePayload js payload
  .ok (createRootFromBytes H data)

/-- Clean 1024-byte chunking, as the spec words it: consecutive fixed-size
chunks, the final one possibly shorter.  Fuel `data.length` is sufficient since
every step removes at least one byte from a non-empty list. -/
def chunksOfF (k : Nat) : Nat → Bytes → List Bytes
  | 0, _ => []
  | fuel + 1, data =>
    if data.isEmpty then []
    else data.take k :: chunksOfF k fuel (data.drop k)

/-- Clean chunking with its sufficient fuel. -/
def chunksOf (k : Nat) (data : Bytes) : List Bytes :=
  chunksOfF k data.length data

/-- Specification-side statement of what the spec says `createRoot` hashes: the
canonical tagged TLV serialization of the payload (§4.B), chunked and fed to
the pairing construction. -/
def createRootSpec (C : Codec) (H : Bytes → Bytes) (payload : JSValue) : Bytes :=
  createRootFromBytes H (serializeV C payload)

/-- The digest-to-index map of `generateProof` (hash.ts:161-170): for each leaf
`hashData(leaf)` (hex of the digest, and hex is injective on bytes, so the map
is modelled with byte-list keys) maps to the leaf index, later entries
overwriting earlier ones; then the map is queried with the raw bytes of the
target. -/
def hashIndexLookup (H : Bytes → Bytes) (leaves : List Bytes) (target : Bytes) :
    Option Nat :=
  (leaves.enum).foldl (fun acc p => if H p.2 = target then some p.1 else acc) none

/-- One level of the proof loop of `generateProof` (hash.ts:182-199): pair the
elements as in `computeRoot`; when a pair contains the tracked index, push the
sibling (`right` when the index is the left slot, `left` otherwise, and the
trailing odd element is its own sibling) and move the index to the pair's
output position.  Arguments: the tracked index, the level, and the position
`p` of the current pair; returns the next level, the siblings pushed at this
level, and the updated index. -/
def proofLevel (H : Bytes → Bytes) (idx : Nat) :
    List Bytes → Nat → List Bytes × List Bytes × Nat
  | [], _ => ([], [], idx)
  | [x], p =>
    if 2 * p = idx ∨ 2 * p + 1 = idx then ([H (x ++ x)], [x], p)
    else ([H (x ++ x)], [], idx)
  | x :: y :: rest, p =>
    let r := proofLevel H idx rest (p + 1)
    if 2 * p = idx then (H (x ++ y) :: r.1, y :: r.2.1, p)
    else if 2 * p + 1 = idx then (H (x ++ y) :: r.1, x :: r.2.1, p)
    else (H (x ++ y) :: r.1, r.2.1, r.2.2)

/-- The `while(level.size() > 1)` loop of `generateProof` (hash.ts:178-203),
collecting the siblings of each level.  Fuel as in `computeRootIter`. -/
def generateProofIter (H : Bytes → Bytes) : Nat → List Bytes → Nat → List Bytes
  | 0, _, _ => []
  | fuel + 1, level, idx =>
    if level.length ≤ 1 then []
    else
      let r := proofLevel H idx level 0
      r.2.1 ++ generateProofIter H fuel r.1 r.2.2

/-- `MerkleTree.generateProof` (hash.ts:151-206) at the byte level: build the
digest-to-index map, look the target up, fail with ERR_MISSING_OBJECT when it
is absent, otherwise collect the sibling path. -/
def generateProof (H : Bytes → Bytes) (leaves : List Bytes) (target : Bytes) :
    Except Err (List Bytes) :=
  match hashIndexLookup H leaves target with
  | none => .error .missingObject
  | some idx => .ok (generateProofIter H leaves.length leaves idx)

/-- `MerkleTree.verifyProof` (hash.ts:208-231) at the byte level: fold
`hash ← hashData(hash ‖ sibling)` over the proof and compare byte-exactly with
the declared root. -/
def verifyProof (H : Bytes → Bytes) (target : Bytes) (proof : List Bytes)
    (root : Bytes) : Bool :=
  root = proof.foldl (fun hash sibling => H (hash ++ sibling)) target

end MerkleTree

/-- The 20-byte armor magic `"HY CHAIN ARMORED KEY"` (part_002:9-14). -/
def ARMORED_CONTENT_MAGIC : Bytes :=
  [0x48, 0x59, 0x20, 0x43, 0x48, 0x41, 0x49, 0x4E, 0x20, 0x41,
   0x52, 0x4D, 0x4F, 0x52, 0x45, 0x44, 0x20, 0x4B, 0x45, 0x59]

/-- `parseKey` (part_002:135-146): fail with ERR_CRYPTO_KEY_SHORT when the key
has fewer than 32 bytes, else split it into `[0,16)` master and `[16,32)` IV. -/
def parseKey (key : Bytes) : Except Err (Bytes × Bytes) :=
  if key.length < 16 + 16 then .error .cryptoKeyShort
  else .ok (key.take 16, (key.drop 16).take 16)

/-- `armor` (part_002:30-64) at the byte level (output encoding omitted): magic,
then the flag byte, then the plaintext source (flag 0) or its AES-128-CBC
encryption under the parsed key (flag 1).  `enc master iv plaintext` models
`createCipheriv("aes-128-cbc", ...)` update+final including PKCS#7 padding. -/
def armorB (enc : Bytes → Bytes → Bytes → Bytes) (e : Bool) (source : Bytes)
    (key : Bytes) : Except Err Bytes :=
  if e = false then .ok (ARMORED_CONTENT_MAGIC ++ 0 :: source)
  else do
    let (mk, iv) ← parseKey key
    .ok (ARMORED_CONTENT_MAGIC ++ 1 :: enc mk iv source)

/-- `dearmor` (part_002:80-129) on byte input (string decoding paths omitted):
check the 20-byte magic (ERR_MAGIC_NUMBER_MISSMATCH on mismatch, including
inputs shorter than the magic), read the flag byte, and return the body as-is
(flag 0), decrypt it (flag 1, `dec` modelling `createDecipheriv`), or fail with
ERR_INVALID_BITFLAG (any other flag, including a missing one). -/
def dearmorB (dec : Bytes → Bytes → Bytes → Bytes) (source : Bytes)
    (key : Bytes) : Except Err Bytes :=
  if source.take 20 ≠ ARMORED_CONTENT_MAGIC then .error .magicNumberMissmatch
  else
    match source[20]? with
    | some 0 => .ok (source.drop 21)
    | some 1 => do
      let (mk, iv) ← parseKey key
      .ok (dec mk iv (source.drop 21))
    | _ => .error .invalidBitflag

/-- A transaction record (format.ts:24-27): a payload and a sequence number. -/
structure CodeTx where
  payload : JSValue
  sequence : Int

/-- Block headers as `generateGenesisBlock` builds them (core.ts:29-36), with
`HashEntity` fields at the byte level. -/
structure CodeBlockHeaders where
  ts : Int
  timestamp : Bytes
  contentLength : Int
  merkleRoot : Bytes
  version : Int
  nonce : Int

/-- The block record exactly as `generateGenesisBlock` assembles it
(core.ts:45-54).  Note the field `transactions` holding a one-element array:
this is what the source writes, although `HyChainFormat.IBlock` (format.ts:34)
declares a field `transaction` holding a single transaction. -/
structure CodeBlock where
  _id : Bytes
  publicBlockId : Bytes
  previousHash : Bytes
  sequence : Int
  contentSignature : Bytes
  transactions : List CodeTx
  metadata : List (Bytes × Bytes)
  headers : CodeBlockHeaders
  blockSignature : Bytes

/-- `AbstractStorageObject._validateBlock` (interface.ts:35-44): a null or
non-object source is rejected, and every remaining value falls through to the
unconditional `return false` left under the `TODO: more strong validation!`
comment (the `source instanceof Block` acceptance is commented out). -/
def _validateBlock (source : Option CodeBlock) : Bool :=
  match source with
  | none => false
  | some _ => false

/-- In-memory storage state (in-memory.ts:8-20): the two parallel indexes and
the disposal flag inherited from `AbstractStorageObject`. -/
structure InMemoryStorage where
  blocksById : List (Bytes × CodeBlock)
  blocksBySeq : List (Int × CodeBlock)
  disposed : Bool

/-- A fresh in-memory storage. -/
def InMemoryStorage.empty : InMemoryStorage := ⟨[], [], false⟩

/-- `this._blocksById.has(b._id)` for the modelled map. -/
def InMemoryStorage.hasId (s : InMemoryStorage) (id : Bytes) : Bool :=
  s.blocksById.any fun p => p.1 = id

/-- `InMemoryStorage.putBlock` (in-memory.ts:22-32): ERR_RESOURCE_DISPOSED after
disposal; false when the id is already present; false when `_validateBlock`
rejects; otherwise insert into both indexes and return true. -/
def InMemoryStorage.putBlock (s : InMemoryStorage) (b : CodeBlock) :
    Except Err (Bool × InMemoryStorage) :=
  if s.disposed then .error .resourceDisposed
  else if s.hasId b._id then .ok (false, s)
  else if !_validateBlock (some b) then .ok (false, s)
  else
    .ok (true,
      { s with
        blocksById := (b._id, b) :: s.blocksById
        blocksBySeq := (b.sequence, b) :: s.blocksBySeq })

/-- The collaborators of `generateGenesisBlock` (core.ts:13-72) that live
outside the function: the hash used by the Merkle engine, the JSON text of the
transaction (`jsonSafeStringify`, safe-json.ts not under src/), the wire codec
parameters, the two node:crypto signers (Ed25519 in IEEE-P1363 form for the
content, ECDSA-SHA512 for the block), the JSON text of the assembled block
(`serialize` falls through to its JSON case on the block record), the abstract
storage's `putBlock`, the cancellation token state (constant for one call), the
signing key bytes (`key.read()`), the captured timestamp and its UTC string,
and the generated identifiers (`longId()` and `uuidv7()` without dashes). -/
structure GenesisEnv where
  H : Bytes → Bytes
  txJson : Except Err Bytes
  codec : Codec
  signEd25519 : Bytes → Bytes → Bytes
  signEcdsaSha512 : Bytes → Bytes → Bytes
  blockJson : CodeBlock → Bytes
  put : CodeBlock → Bool
  tokenCancelled : Bool
  signKey : Bytes
  ts : Int
  utc : Bytes
  longIdVal : Bytes
  pubIdVal : Bytes

/-- `generateGenesisBlock` (core.ts:13-72): check the token; compute the Merkle
root of the transaction; serialize the payload under the wire codec and record
its byte length as `contentLength` (initialized to the placeholder −1 and
overwritten before the record is assembled, so the assembled record carries the
final value); sign the payload (Ed25519, IEEE-P1363); assemble the record with
`_id = longId()`, `publicBlockId` the dash-less uuidv7, `previousHash` the
ASCII string `"0"` repeated 64 times (byte 48), `sequence = 0`,
`transactions = [transaction]`, `metadata = metadata ?? {}` and headers
`{ts, version: 1, nonce: 0, contentLength, merkleRoot, timestamp}`; serialize
the record (without `blockSignature`) and sign it (ECDSA-SHA512); re-check the
token; `putBlock`, failing with the generic chain-storage error when it returns
false; return the block. -/
def generateGenesisBlock (E : GenesisEnv) (tx : CodeTx)
    (metadata : Option (List (Bytes × Bytes))) : Except Err CodeBlock :=
  if E.tokenCancelled then .error .tokenCancelled
  else do
    let data ← E.txJson
    let merkleRoot := MerkleTree.createRootFromBytes E.H data
    let contentBytes := serializeV E.codec tx.payload
    let headers : CodeBlockHeaders :=
      ⟨E.ts, E.utc, (contentBytes.length : Int), merkleRoot, 1, 0⟩
    let contentSignature := E.signEd25519 E.signKey contentBytes
    let block0 : CodeBlock :=
      ⟨E.longIdVal, E.pubIdVal, List.replicate 64 48, 0, contentSignature,
        [tx], metadata.getD [], headers, []⟩
    let block := { block0 with blockSignature := E.signEcdsaSha512 E.signKey (E.blockJson block0) }
    if E.tokenCancelled then .error .tokenCancelled
    else if !E.put block then .error .unknownError
    else .ok block

/-- Modelled from the spec: `jsonSafeStringify` (src/node/src/@internals/
safe-json.ts, which is not included under src/) wraps the host `JSON.stringify`
(RFC 8259).  The model covers the shapes the theorems evaluate it at — `null`
and strings without control bytes, where `JSON.stringify` emits `null` and the
quoted string with `"` and `\` escaped — and reports every other shape as
unsupported. -/
def jsonEscape : Bytes → Bytes
  | [] => []
  | c :: rest =>
    if c = 34 then 92 :: 34 :: jsonEscape rest
    else if c = 92 then 92 :: 92 :: jsonEscape rest
    else c :: jsonEscape rest

/-- Modelled from the spec: the entry point of the modelled `jsonSafeStringify`
(see `jsonEscape`). -/
def jsonSafeStringifyModel : JSValue → Except Err Bytes
  | .vnull => .ok [110, 117, 108, 108]
  | .vstr s =>
    if s.all fun c => 32 ≤ c && c < 256 then .ok (34 :: (jsonEscape s ++ [34]))
    else .error .invalidType
  | _ => .error .invalidType

/-- A concrete codec with inert external primitives, used to instantiate the
codec parameters in closed statements whose computation does not consult them. -/
def trivialCodec : Codec :=
  ⟨fun _ => [], fun _ => .error .unknownError, fun _ => [],
    fun _ => .error .unknownError, fun b => b, fun _ => none, fun _ => []⟩

theorem toUint32_ofNat (u : Nat) (h : u < 2 ^ 32) : toUint32 (u : Int) = u := by
  unfold toUint32
  rw [Int.emod_eq_of_lt (by positivity) (by exact_mod_cast h)]
  exact Int.toNat_ofNat u

theorem toUint32_lt (z : Int) : toUint32 z < 2 ^ 32 := by
  unfold toUint32
  have h1 : z % (2 ^ 32 : Int) < (2 ^ 32 : Int) := Int.emod_lt_of_pos z (by positivity)
  omega

theorem toInt32_of_lt (u : Nat) (h : u < 2 ^ 31) : toInt32 (u : Int) = u := by
  unfold toInt32
  rw [toUint32_ofNat u (by omega)]
  split
  · rfl
  · omega

theorem toUint32_toInt32 (z : Int) : toUint32 (toInt32 z) = toUint32 z := by
  unfold toInt32 toUint32
  by_cases h : ((z % (2 ^ 32 : Int)).toNat < 2 ^ 31)
  · simp only [toUint32, h, if_true]
    omega
  · simp only [toUint32, h, if_false]
    omega

theorem lor_mul_two_pow_of_lt : ∀ m a b : Nat, a < 2 ^ m → a ||| b * 2 ^ m = a + b * 2 ^ m := by
  intro m
  induction m with
  | zero =>
    intro a b h
    interval_cases a
    simp
  | succ m ih =>
    intro a b h
    have ha : a = Nat.bit (Nat.bodd a) (Nat.div2 a) := (Nat.bit_decomp a).symm
    have hb : b * 2 ^ (m + 1) = Nat.bit false (b * 2 ^ m) := by
      simp [Nat.bit]
      ring
    rw [ha, hb, Nat.lor_bit]
    have hd : Nat.div2 a < 2 ^ m := by
      rw [Nat.div2_val]
      omega
    rw [ih (Nat.div2 a) b hd]
    simp [Nat.bit]
    cases hbo : Nat.bodd a <;> simp <;> ring

theorem land127_eq_mod (a : Nat) : a &&& 127 = a % 128 := by
  have h : (127 : Nat) = 2 ^ 7 - 1 := by norm_num
  have h2 : (128 : Nat) = 2 ^ 7 := by norm_num
  apply Nat.eq_of_testBit_eq
  intro i
  rw [Nat.testBit_land, h, h2, Nat.testBit_mod_two_pow, Nat.testBit_two_pow_sub_one,
    Bool.and_comm]

theorem land128_of_lt (d : Nat) (h : d < 128) : d &&& 128 = 0 := by
  have h2 : (128 : Nat) = 2 ^ 7 := by norm_num
  rw [h2, Nat.and_two_pow, Nat.testBit_lt_two_pow (by omega : d < 2 ^ 7)]
  simp

theorem land128_add (d : Nat) (h : d < 128) : (d + 128) &&& 128 = 128 := by
  have h2 : (128 : Nat) = 2 ^ 7 := by norm_num
  rw [h2, Nat.and_two_pow, Nat.testBit_to_div_mod]
  have h3 : (d + 2 ^ 7) / 2 ^ 7 = 1 := by omega
  rw [h3]
  simp
theorem vqlCoreF_zero : ∀ fuel, vqlCoreF fuel 0 = [] := by
  intro fuel
  cases fuel <;> simp [vqlCoreF]

theorem jsShl_small (d n : Nat) (hn : n < 32) (hd : d * 2 ^ n < 2 ^ 32) :
    jsShl (d : Int) n = toInt32 ((d * 2 ^ n : Nat) : Int) := by
  unfold jsShl
  have hd32 : d < 2 ^ 32 := by
    have : 1 ≤ 2 ^ n := Nat.one_le_two_pow
    nlinarith
  rw [toUint32_ofNat d hd32, Nat.mod_eq_of_lt hn, Nat.shiftLeft_eq, Nat.mod_eq_of_lt hd]
  rfl

theorem jsOr_digits (a e : Nat) (ha : a < 2 ^ 32) (he : e < 2 ^ 32) :
    jsOr (toInt32 (a : Int)) (toInt32 (e : Int)) = toInt32 ((a ||| e : Nat) : Int) := by
  unfold jsOr
  rw [toUint32_toInt32, toUint32_toInt32, toUint32_ofNat a ha, toUint32_ofNat e he]
  rfl

theorem vqlCoreF_read (rest : Bytes) :
    ∀ fuel u k (a : Nat), 0 < u → u ≤ fuel → u < 2 ^ (32 - 7 * k) → a < 2 ^ (7 * k) →
    readIntVQLAux (vqlCoreF fuel u ++ rest) (7 * k) (toInt32 (a : Int)) =
      .ok (toInt32 ((a + u * 2 ^ (7 * k) : Nat) : Int), rest) := by
  intro fuel
  induction fuel with
  | zero =>
    intro u k a hu hfu _ _
    omega
  | succ fuel ih =>
    intro u k a hu hfu hub hab
    have hk31 : 7 * k ≤ 31 := by
      by_contra hcon
      have h1 : 32 - 7 * k = 0 := by omega
      rw [h1] at hub
      simp at hub
      omega
    have hsplit : 2 ^ (32 - 7 * k) * 2 ^ (7 * k) = 2 ^ 32 := by
      rw [← pow_add]
      congr 1
      omega
    have hd : u % 128 < 128 := Nat.mod_lt u (by norm_num)
    rw [show vqlCoreF (fuel + 1) u =
      (u % 128 + if 0 < u / 128 then 128 else 0) :: vqlCoreF fuel (u / 128) by
        simp [vqlCoreF]
        omega]
    by_cases hq : u / 128 = 0
    · -- final digit: u < 128, continuation bit clear
      have hu128 : u < 128 := by omega
      have hmod : u % 128 = u := Nat.mod_eq_of_lt hu128
      rw [hq, hmod, vqlCoreF_zero]
      simp only [if_neg (by omega : ¬ 0 < 0), add_zero, List.nil_append]
      simp only [readIntVQLAux, land127_eq_mod, hmod, land128_of_lt u hu128, if_true,
        List.nil_append, Int.ofNat_eq_natCast]
      have hub32 : u * 2 ^ (7 * k) < 2 ^ 32 := by
        have h1 : u * 2 ^ (7 * k) < 2 ^ (32 - 7 * k) * 2 ^ (7 * k) :=
          mul_lt_mul_of_pos_right hub (by positivity)
        omega
      rw [jsShl_small u (7 * k) (by omega) hub32]
      have ha32 : a < 2 ^ 32 :=
        lt_of_lt_of_le hab (Nat.pow_le_pow_right (by norm_num) (by omega))
      rw [jsOr_digits a (u * 2 ^ (7 * k)) ha32 hub32]
      rw [lor_mul_two_pow_of_lt (7 * k) a u hab]
      rfl
    · -- continuation digit
      have hq1 : 0 < u / 128 := by omega
      have hu128 : 128 ≤ u := by
        by_contra hcon
        rw [Nat.div_eq_of_lt (by omega)] at hq1
        omega
      have h7k : 7 * k + 7 < 32 := by
        by_contra hcon
        have h1 : 32 - 7 * k ≤ 7 := by omega
        have h2 : (2 : Nat) ^ (32 - 7 * k) ≤ 2 ^ 7 := Nat.pow_le_pow_right (by norm_num) h1
        omega
      rw [if_pos hq1]
      rw [List.cons_append]
      simp only [readIntVQLAux, Int.ofNat_eq_natCast]
      have hb127 : (u % 128 + 128) &&& 127 = u % 128 := by
        rw [land127_eq_mod]
        omega
      have hb128 : (u % 128 + 128) &&& 128 = 128 := land128_add (u % 128) hd
      simp only [hb127, hb128]
      rw [if_neg (by omega : ¬ (128 : Nat) = 0)]
      have hdig32 : u % 128 * 2 ^ (7 * k) < 2 ^ 32 := by
        have h1 : u % 128 * 2 ^ (7 * k) < 128 * 2 ^ (7 * k) :=
          mul_lt_mul_of_pos_right hd (by positivity)
        have h2 : (128 : Nat) * 2 ^ (7 * k) = 2 ^ (7 * k + 7) := by
          rw [pow_add]
          ring
        have h3 : (2 : Nat) ^ (7 * k + 7) ≤ 2 ^ 32 := Nat.pow_le_pow_right (by norm_num) (by omega)
        omega
      rw [jsShl_small (u % 128) (7 * k) (by omega) hdig32]
      have ha32 : a < 2 ^ 32 :=
        lt_of_lt_of_le hab (Nat.pow_le_pow_right (by norm_num) (by omega))
      rw [jsOr_digits a (u % 128 * 2 ^ (7 * k)) ha32 hdig32]
      rw [lor_mul_two_pow_of_lt (7 * k) a (u % 128) hab]
      have hstep : 7 * k + 7 = 7 * (k + 1) := by ring
      rw [hstep]
      have ihres := ih (u / 128) (k + 1) (a + u % 128 * 2 ^ (7 * k)) hq1
        (by
          have : u / 128 < u := Nat.div_lt_self (by omega) (by norm_num)
          omega)
        (by
          rw [Nat.div_lt_iff_lt_mul (by norm_num : (0 : Nat) < 128)]
          have h1 : 32 - 7 * (k + 1) + 7 = 32 - 7 * k := by omega
          have h2 : (2 : Nat) ^ (32 - 7 * (k + 1)) * 128 = 2 ^ (32 - 7 * k) := by
            rw [show (128 : Nat) = 2 ^ 7 by norm_num, ← pow_add, h1]
          omega)
        (by
          have h1 : a + u % 128 * 2 ^ (7 * k) < 2 ^ (7 * k) + 127 * 2 ^ (7 * k) := by
            have : u % 128 * 2 ^ (7 * k) ≤ 127 * 2 ^ (7 * k) :=
              Nat.mul_le_mul_right _ (by omega)
            omega
          have h2 : (2 : Nat) ^ (7 * k) + 127 * 2 ^ (7 * k) = 2 ^ (7 * (k + 1)) := by
            have : 7 * (k + 1) = 7 * k + 7 := by ring
            rw [this, pow_add]
            ring
          omega)
      rw [ihres]
      have hpow : (2 : Nat) ^ (7 * (k + 1)) = 2 ^ (7 * k) * 128 := by
        have h1 : 7 * (k + 1) = 7 * k + 7 := by ring
        rw [h1, pow_add]
        ring
      have harg : a + u % 128 * 2 ^ (7 * k) + u / 128 * 2 ^ (7 * (k + 1)) =
          a + u * 2 ^ (7 * k) := by
        rw [hpow]
        have hu2 : u = 128 * (u / 128) + u % 128 := by omega
        calc a + u % 128 * 2 ^ (7 * k) + u / 128 * (2 ^ (7 * k) * 128)
            = a + (128 * (u / 128) + u % 128) * 2 ^ (7 * k) := by ring
          _ = a + u * 2 ^ (7 * k) := by rw [← hu2]
      rw [harg]

theorem toInt32_natCast_toUint32 (z : Int) :
    toInt32 ((toUint32 z : Nat) : Int) = toInt32 z := by
  unfold toInt32
  rw [toUint32_ofNat (toUint32 z) (toUint32_lt z)]

theorem readIntVQL_write (z : Int) (rest : Bytes) :
    readIntVQL (writeInt32VQL z ++ rest) = .ok (toInt32 z, rest) := by
  unfold readIntVQL writeInt32VQL
  by_cases h : toUint32 z = 0
  · rw [if_pos h]
    have hz : toInt32 z = 0 := by
      unfold toInt32
      rw [h]
      norm_num
    rw [hz]
    rfl
  · rw [if_neg h]
    have hres := vqlCoreF_read rest (toUint32 z) (toUint32 z) 0 0 (by omega) le_rfl
      (by simpa using toUint32_lt z) (by norm_num)
    simp only [Nat.mul_zero, pow_zero, Nat.mul_one, Nat.zero_add] at hres
    have h0 : toInt32 ((0 : Nat) : Int) = 0 := by decide
    rw [h0] at hres
    unfold vqlCore
    rw [hres, toInt32_natCast_toUint32]

theorem readIntVQL_write_nat (n : Nat) (h : n < 2 ^ 31) (rest : Bytes) :
    readIntVQL (writeInt32VQL (n : Int) ++ rest) = .ok ((n : Int), rest) := by
  rw [readIntVQL_write, toInt32_of_lt n h]

namespace MerkleTree

theorem pairLevel_length (H : Bytes → Bytes) :
    ∀ l : List Bytes, (pairLevel H l).length = (l.length + 1) / 2
  | [] => rfl
  | [x] => by
    simp [pairLevel]
  | x :: y :: rest => by
    simp only [pairLevel, List.length_cons]
    rw [pairLevel_length H rest]
    omega

theorem computeRootIter_length (H : Bytes → Bytes) :
    ∀ fuel level, 1 ≤ level.length → level.length ≤ fuel + 1 →
    (computeRootIter H fuel level).length = 1 := by
  intro fuel
  induction fuel with
  | zero =>
    intro level h1 h2
    simp only [computeRootIter]
    omega
  | succ fuel ih =>
    intro level h1 h2
    simp only [computeRootIter]
    by_cases hle : level.length ≤ 1
    · rw [if_pos hle]
      omega
    · rw [if_neg hle]
      exact ih (pairLevel H level) (by rw [pairLevel_length]; omega)
        (by rw [pairLevel_length]; omega)

theorem chunkLoopAux_eq (d : Bytes) :
    ∀ fuel i, chunkLoopAux d fuel i = chunksOfF 1024 fuel (d.drop i) := by
  intro fuel
  induction fuel with
  | zero =>
    intro i
    rfl
  | succ fuel ih =>
    intro i
    simp only [chunkLoopAux, chunksOfF]
    by_cases h : i < d.length
    · rw [if_pos h, if_neg (by simp [List.isEmpty_iff, List.drop_eq_nil_iff]; omega)]
      rw [ih (i + 1024)]
      have hdd : (d.drop i).drop 1024 = d.drop (i + 1024) := by
        rw [List.drop_drop]
        try congr 1
        try omega
      rw [hdd]
    · rw [if_neg h, if_pos (by simp [List.isEmpty_iff, List.drop_eq_nil_iff]; omega)]

theorem chunksOfF_ne_nil (k : Nat) (fuel : Nat) (d : Bytes) (hd : d ≠ [])
    (hf : 0 < fuel) : chunksOfF k fuel d ≠ [] := by
  cases fuel with
  | zero => omega
  | succ fuel =>
    simp only [chunksOfF]
    rw [if_neg (by simpa [List.isEmpty_iff] using hd)]
    exact List.cons_ne_nil _ _

theorem chunkChunks_eq (d : Bytes) :
    chunkChunks d = if d = [] then [d] else chunksOf 1024 d := by
  unfold chunkChunks
  rw [chunkLoopAux_eq d d.length 0, List.drop_zero]
  by_cases h : d = []
  · subst h
    simp [chunksOfF]
  · rw [if_neg h]
    have h1 : chunksOfF 1024 d.length d ≠ [] :=
      chunksOfF_ne_nil 1024 d.length d h (by
        cases d with
        | nil => exact absurd rfl h
        | cons x xs => simp)
    rw [if_neg (by simpa [List.length_eq_zero] using h1)]
    rfl

end MerkleTree

theorem armor_take20 (x : Bytes) :
    (ARMORED_CONTENT_MAGIC ++ x).take 20 = ARMORED_CONTENT_MAGIC := rfl

theorem armor_flagByte (f : Nat) (body : Bytes) :
    (ARMORED_CONTENT_MAGIC ++ f :: body)[20]? = some f := by
  rw [List.getElem?_append_right (by norm_num [ARMORED_CONTENT_MAGIC])]
  norm_num [ARMORED_CONTENT_MAGIC]

theorem armor_body (f : Nat) (body : Bytes) :
    (ARMORED_CONTENT_MAGIC ++ f :: body).drop 21 = body := rfl

theorem armor_magic_ne (x : Bytes) :
    ¬(ARMORED_CONTENT_MAGIC ++ x).take 20 ≠ ARMORED_CONTENT_MAGIC := by
  rw [armor_take20]
  exact fun h => h rfl

theorem parseKey_ok (key : Bytes) (hk : 32 ≤ key.length) :
    parseKey key = .ok (key.take 16, (key.drop 16).take 16) := by
  unfold parseKey
  rw [if_neg (by omega)]

/-- C8: for every byte sequence and both flag values, dearmor inverts armor
(32-byte key required when the body is encrypted); the armored output starts
with the 20-byte magic followed by the one-byte flag; a short key fails with
ERR_CRYPTO_KEY_SHORT; a wrong magic fails with ERR_MAGIC_NUMBER_MISSMATCH; a
flag byte other than 0 or 1 fails with ERR_INVALID_BITFLAG.  `enc`/`dec` model
the external AES-128-CBC cipher pair, assumed mutually inverse. -/
theorem C8_armor_envelope (enc dec : Bytes → Bytes → Bytes → Bytes)
    (hinv : ∀ mk iv m, dec mk iv (enc mk iv m) = m) :
    (∀ src key : Bytes,
      (armorB enc false src key >>= fun out => dearmorB dec out key) = .ok src) ∧
    (∀ src key : Bytes, 32 ≤ key.length →
      (armorB enc true src key >>= fun out => dearmorB dec out key) = .ok src) ∧
    (∀ (e : Bool) (src key out : Bytes), armorB enc e src key = .ok out →
      out.take 20 = ARMORED_CONTENT_MAGIC ∧ out[20]? = some (if e then 1 else 0)) ∧
    (∀ src key : Bytes, key.length < 32 →
      armorB enc true src key = .error .cryptoKeyShort) ∧
    (∀ buf key : Bytes, buf.take 20 ≠ ARMORED_CONTENT_MAGIC →
      dearmorB dec buf key = .error .magicNumberMissmatch) ∧
    (∀ (body key : Bytes) (f : Nat), f ≠ 0 → f ≠ 1 →
      dearmorB dec (ARMORED_CONTENT_MAGIC ++ f :: body) key = .error .invalidBitflag) := by
  have hfalse : ∀ src key : Bytes,
      armorB enc false src key = .ok (ARMORED_CONTENT_MAGIC ++ 0 :: src) :=
    fun _ _ => rfl
  have htrue : ∀ src key : Bytes, 32 ≤ key.length →
      armorB enc true src key =
        .ok (ARMORED_CONTENT_MAGIC ++ 1 :: enc (key.take 16) ((key.drop 16).take 16) src) := by
    intro src key hk
    unfold armorB
    rw [if_neg (by decide : ¬(true = false)), parseKey_ok key hk]
    rfl
  refine ⟨?_, ?_, ?_, ?_, ?_, ?_⟩
  · intro src key
    rw [hfalse src key]
    show dearmorB dec (ARMORED_CONTENT_MAGIC ++ 0 :: src) key = .ok src
    unfold dearmorB
    rw [if_neg (armor_magic_ne (0 :: src)), armor_flagByte 0 src]
    rfl
  · intro src key hk
    rw [htrue src key hk]
    show dearmorB dec
      (ARMORED_CONTENT_MAGIC ++ 1 :: enc (key.take 16) ((key.drop 16).take 16) src) key = .ok src
    unfold dearmorB
    rw [if_neg (armor_magic_ne _), armor_flagByte 1 _]
    show (do
      let p ← parseKey key
      Except.ok (dec p.1 p.2
        ((ARMORED_CONTENT_MAGIC ++
          1 :: enc (key.take 16) ((key.drop 16).take 16) src).drop 21))) = .ok src
    rw [parseKey_ok key hk, armor_body]
    show Except.ok (dec (key.take 16) ((key.drop 16).take 16)
      (enc (key.take 16) ((key.drop 16).take 16) src)) = .ok src
    rw [hinv]
  · intro e src key out hout
    cases e with
    | false =>
      rw [hfalse src key] at hout
      injection hout with hout
      subst hout
      exact ⟨armor_take20 _, by rw [armor_flagByte 0 src]; rfl⟩
    | true =>
      by_cases hk : 32 ≤ key.length
      · rw [htrue src key hk] at hout
        injection hout with hout
        subst hout
        exact ⟨armor_take20 _, by rw [armor_flagByte 1 _]; rfl⟩
      · exfalso
        unfold armorB at hout
        rw [if_neg (by decide : ¬(true = false))] at hout
        unfold parseKey at hout
        rw [if_pos (by omega : key.length < 16 + 16)] at hout
        exact Except.noConfusion hout
  · intro src key hk
    unfold armorB
    rw [if_neg (by decide : ¬(true = false))]
    unfold parseKey
    rw [if_pos (by omega : key.length < 16 + 16)]
    rfl
  · intro buf key hm
    unfold dearmorB
    rw [if_pos hm]
  · intro body key f h0 h1
    unfold dearmorB
    rw [if_neg (armor_magic_ne _), armor_flagByte f body]
    rcases f with _ | _ | f
    · exact absurd rfl h0
    · exact absurd rfl h1
    · rfl

/-- Witness for C8 at concrete inputs: the identity cipher pair satisfies the
inverse contract; flag byte 99 exercises the bitflag failure and a non-magic
byte string the magic failure. -/
theorem C8_armor_envelope_witness :
    (armorB (fun _ _ m => m) false [104, 105] [] >>=
      fun out => dearmorB (fun _ _ c => c) out []) = .ok [104, 105] ∧
    (armorB (fun _ _ m => m) true [104, 105] (List.replicate 32 7) >>=
      fun out => dearmorB (fun _ _ c => c) out (List.replicate 32 7)) = .ok [104, 105] ∧
    armorB (fun _ _ m => m) true [104, 105] [1, 2, 3] = .error .cryptoKeyShort ∧
    dearmorB (fun _ _ c => c) [73, 78, 86, 65, 76, 73, 68] [] = .error .magicNumberMissmatch ∧
    dearmorB (fun _ _ c => c) (ARMORED_CONTENT_MAGIC ++ 99 :: [104, 105]) [] =
      .error .invalidBitflag := by
  have h := C8_armor_envelope (fun _ _ m => m) (fun _ _ c => c) (fun _ _ _ => rfl)
  exact ⟨h.1 [104, 105] [], h.2.1 [104, 105] (List.replicate 32 7) (by decide),
    h.2.2.2.1 [104, 105] [1, 2, 3] (by decide),
    h.2.2.2.2.1 [73, 78, 86, 65, 76, 73, 68] [] (by decide),
    h.2.2.2.2.2 [104, 105] [] 99 (by decide) (by decide)⟩

/-- C9 (code bug): a no-argument `read` consumes the buffer and nulls `#data`
(protocol.ts:140); the next `read` then dereferences `this.#data.byteLength`
and crashes with a host TypeError instead of raising the structured
ERR_END_OF_STREAM that the claim states — the guard that would raise it
(protocol.ts:129-131) is itself the crashing line.  When the buffer was
exhausted by a length-bounded read instead, `#data` is intact and the guard
does raise ERR_END_OF_STREAM, as the last two conjuncts show.  Post-dispose
reads fail with ERR_RESOURCE_DISPOSED, and a negative length on a live,
non-exhausted reader fails with ERR_INVALID_ARGUMENT. -/
theorem C9_reader_read_after_drain :
    (BufferReader.ofBytes [1, 2, 3]).read none = .ok ([1, 2, 3], ⟨none, 3, 3, false⟩) ∧
    (BufferReader.mk none 3 3 false).read none = .error .jsTypeError ∧
    (BufferReader.mk none 3 3 false).read (some (.int 1)) = .error .jsTypeError ∧
    (BufferReader.ofBytes [9]).read (some (.int 1)) = .ok ([9], ⟨some [9], 1, 1, false⟩) ∧
    (BufferReader.mk (some [9]) 1 1 false).read (some (.int 1)) = .error .endOfStream ∧
    (BufferReader.ofBytes [1, 2, 3]).read (some (.int 2)) =
      .ok ([1, 2], ⟨some [1, 2, 3], 2, 3, false⟩) ∧
    (BufferReader.ofBytes [1, 2, 3]).read (some (.int (-1))) = .error .invalidArgument ∧
    (BufferReader.ofBytes [1, 2, 3]).read (some .nonInt) = .error .invalidArgument ∧
    ((BufferReader.ofBytes [1, 2, 3]).disposeR).read none = .error .resourceDisposed :=
  ⟨rfl, rfl, rfl, rfl, rfl, rfl, rfl, rfl, rfl⟩

/-- C10 (code bug): each consuming accessor of a `HashEntity` performs a
no-argument read, so a second call to any of them finds the nulled `#data` and
crashes with a host TypeError rather than the ERR_END_OF_STREAM the claim
states, while `byteLength` still reports the original length (the stored
total survives the drain). -/
theorem C10_hashEntity_second_access :
    (HashEntity.ofBytes [1, 2, 3]).buffer =
      .ok ([1, 2, 3], ⟨⟨none, 3, 3, false⟩, false⟩) ∧
    (HashEntity.mk ⟨none, 3, 3, false⟩ false).buffer = .error .jsTypeError ∧
    (HashEntity.mk ⟨none, 3, 3, false⟩ false).bytes = .error .jsTypeError ∧
    (HashEntity.mk ⟨none, 3, 3, false⟩ false).digestBytes = .error .jsTypeError ∧
    (HashEntity.mk ⟨none, 3, 3, false⟩ false).arrayBuffer = .error .jsTypeError ∧
    (HashEntity.mk ⟨none, 3, 3, false⟩ false).readE none = .error .jsTypeError ∧
    (HashEntity.mk ⟨none, 3, 3, false⟩ false).byteLength = .ok 3 :=
  ⟨rfl, rfl, rfl, rfl, rfl, rfl, rfl⟩

/-- C2 (code bug): on a live storage whose id index does not contain `b._id`,
`putBlock` still returns false for every block, because `_validateBlock`
unconditionally returns false (interface.ts:43, under the
`TODO: more strong validation!` comment), and the storage is left unchanged. -/
theorem C2_putBlock_rejects_fresh_block (s : InMemoryStorage) (b : CodeBlock)
    (hdisp : s.disposed = false) (hfresh : s.hasId b._id = false) :
    s.putBlock b = .ok (false, s) := by
  unfold InMemoryStorage.putBlock
  rw [hdisp, hfresh]
  rfl

/-- Witness for C2: the empty storage and a fully concrete block record. -/
theorem C2_putBlock_rejects_fresh_block_witness :
    InMemoryStorage.empty.disposed = false ∧
    InMemoryStorage.empty.hasId [7] = false ∧
    InMemoryStorage.empty.putBlock
      ⟨[7], [8], [9], 0, [1], [⟨.vnull, 0⟩], [], ⟨0, [], 0, [], 1, 0⟩, [2]⟩ =
      .ok (false, InMemoryStorage.empty) :=
  ⟨rfl, rfl,
    C2_putBlock_rejects_fresh_block InMemoryStorage.empty
      ⟨[7], [8], [9], 0, [1], [⟨.vnull, 0⟩], [], ⟨0, [], 0, [], 1, 0⟩, [2]⟩ rfl rfl⟩

/-- C4 (amended): `computeRoot` on a single-element leaf list returns the leaf
itself — the `while(level.size() > 1)` loop never runs, so no pairing (and in
particular no odd-leaf duplication) happens at all. -/
theorem C4_computeRoot_single_leaf (H : Bytes → Bytes) (h : Bytes) :
    MerkleTree.computeRoot H [h] = h := rfl

/-- Counterexample for C4 as stated: for the concrete digest function
`H l = 0 :: l` and the one-element leaf list `[[1]]`, `computeRoot` does not
return `H (h ‖ h)`. -/
theorem C4_counterexample :
    MerkleTree.computeRoot (fun l => 0 :: l) [[1]] ≠ (fun l : Bytes => 0 :: l) ([1] ++ [1]) := by
  decide

/-- C1 (code bug): `generateProof` hashes every leaf a second time when it
builds the digest-to-index map (hash.ts:164-167) but looks the target up by
its raw bytes (hash.ts:169-170), so a target that IS an element of the leaf
list is not found whenever `H target ≠ target`, and the function fails with
ERR_MISSING_OBJECT — even though its own error message says the target "was
not found in hashes list". -/
theorem C1_generateProof_misses_member (H : Bytes → Bytes) (b : Bytes)
    (hne : H b ≠ b) :
    b ∈ [b] ∧ MerkleTree.generateProof H [b] b = .error .missingObject := by
  refine ⟨List.mem_singleton_self b, ?_⟩
  have h1 : MerkleTree.hashIndexLookup H [b] b = (if H b = b then some 0 else none) := rfl
  unfold MerkleTree.generateProof
  rw [h1, if_neg hne]

/-- Witness for C1 at a concrete hash function and leaf. -/
theorem C1_generateProof_misses_member_witness :
    (fun l : Bytes => 0 :: l) [1] ≠ [1] ∧
    ([1] ∈ [[1]] ∧
      MerkleTree.generateProof (fun l => 0 :: l) [[1]] [1] = .error .missingObject) :=
  ⟨by decide, C1_generateProof_misses_member (fun l => 0 :: l) [1] (by decide)⟩

/-- C6 (amended): reading back `writeInt32VQL(n)` yields the signed 32-bit
reinterpretation of `n` (equal to `n` exactly when `n < 2^31`, because
`readIntVQL` reassembles the digits with JS signed 32-bit `|` and `<<`), and
the four concrete encodings of the claim hold as stated. -/
theorem C6_vql_roundtrip :
    (∀ n : Nat, n < 2 ^ 32 →
      readIntVQL (writeInt32VQL (n : Int)) = .ok (toInt32 (n : Int), [])) ∧
    (∀ n : Nat, n < 2 ^ 31 → toInt32 (n : Int) = (n : Int)) ∧
    writeInt32VQL 0 = [0x00] ∧ writeInt32VQL 127 = [0x7F] ∧
    writeInt32VQL 128 = [0x80, 0x01] ∧ writeInt32VQL 16384 = [0x80, 0x80, 0x01] := by
  refine ⟨?_, ?_, by decide, by decide, by decide, by decide⟩
  · intro n _
    have h := readIntVQL_write ((n : Nat) : Int) []
    rwa [List.append_nil] at h
  · intro n h
    exact toInt32_of_lt n h

/-- Witness for C6 applying the round-trip at nine-digit and small inputs. -/
theorem C6_vql_roundtrip_witness :
    readIntVQL (writeInt32VQL ((300 : Nat) : Int)) = .ok (toInt32 ((300 : Nat) : Int), []) ∧
    toInt32 ((5 : Nat) : Int) = ((5 : Nat) : Int) :=
  ⟨C6_vql_roundtrip.1 300 (by norm_num), C6_vql_roundtrip.2.1 5 (by norm_num)⟩

/-- Counterexample for C6 as stated: at `n = 2^31` the decoder returns the
negative reinterpretation `-2^31`, not `n`. -/
theorem C6_counterexample :
    readIntVQL (writeInt32VQL ((2 ^ 31 : Nat) : Int)) = .ok (-(2 ^ 31 : Int), []) ∧
    (-(2 ^ 31 : Int)) ≠ ((2 ^ 31 : Nat) : Int) := by
  have h := readIntVQL_write ((2 ^ 31 : Nat) : Int) []
  rw [List.append_nil] at h
  have h2 : toInt32 ((2 ^ 31 : Nat) : Int) = -(2 ^ 31 : Int) := by decide
  rw [h2] at h
  exact ⟨h, by decide⟩

/-- C5 (code bug): under a non-cancelled token, a serializable transaction and
a storage that accepts the block, the genesis pipeline yields a record with
`sequence = 0`, `previousHash` the 64 ASCII `"0"` bytes,
`headers.contentLength = 3` for the payload `"x"` (String tag ‖ VQL(1) ‖ `x`),
`metadata` the provided mapping or `{}`, and non-empty signatures — but the
transaction is stored in a field `transactions` as the one-element array
`[tx]`, not in the `transaction` field that `HyChainFormat.IBlock`
(format.ts:34) declares. -/
theorem C5_genesis_block (E : GenesisEnv) (md : Option (List (Bytes × Bytes)))
    (d : Bytes)
    (htok : E.tokenCancelled = false)
    (hjs : E.txJson = .ok d)
    (hput : ∀ blk, E.put blk = true)
    (hed : ∀ k m, E.signEd25519 k m ≠ [])
    (hec : ∀ k m, E.signEcdsaSha512 k m ≠ []) :
    ∃ blk, generateGenesisBlock E ⟨.vstr [120], 0⟩ md = .ok blk ∧
      blk.sequence = 0 ∧
      blk.previousHash = List.replicate 64 48 ∧
      blk.headers.contentLength = 3 ∧
      blk.transactions = [⟨.vstr [120], 0⟩] ∧
      blk.metadata = md.getD [] ∧
      blk.contentSignature ≠ [] ∧
      blk.blockSignature ≠ [] := by
  unfold generateGenesisBlock
  rw [htok, hjs]
  simp only [hput, Bool.not_true, Bool.false_eq_true, if_false]
  exact ⟨_, rfl, rfl, rfl, rfl, rfl, rfl, hed _ _, hec _ _⟩

/-- Witness for C5 with a fully concrete environment: identity hash, constant
signers, an accepting storage, and a non-cancelled token. -/
theorem C5_genesis_block_witness :
    ∃ blk,
      generateGenesisBlock
        ⟨fun l => l, .ok [], trivialCodec, fun _ _ => [7], fun _ _ => [8],
          fun _ => [], fun _ => true, false, [9], 0, [], [1], [2]⟩
        ⟨.vstr [120], 0⟩ none = .ok blk ∧
      blk.sequence = 0 ∧
      blk.previousHash = List.replicate 64 48 ∧
      blk.headers.contentLength = 3 ∧
      blk.transactions = [⟨.vstr [120], 0⟩] ∧
      blk.metadata = (none : Option (List (Bytes × Bytes))).getD [] ∧
      blk.contentSignature ≠ [] ∧
      blk.blockSignature ≠ [] :=
  C5_genesis_block
    ⟨fun l => l, .ok [], trivialCodec, fun _ _ => [7], fun _ _ => [8],
      fun _ => [], fun _ => true, false, [9], 0, [], [1], [2]⟩
    none [] rfl rfl (fun _ => rfl) (fun _ _ => List.cons_ne_nil 7 [])
    (fun _ _ => List.cons_ne_nil 8 [])

/-- C3 (amended): `createRoot` hashes exactly the byte stream produced by
`jsonSafeStringify` (JSON, not the tagged TLV codec), split into consecutive
1024-byte chunks with the final chunk possibly shorter, one empty chunk when
the serialized payload is empty, and returns `computeRoot` of the per-chunk
digests. -/
theorem C3_createRoot_json_chunks (H : Bytes → Bytes)
    (js : JSValue → Except Err Bytes) (p : JSValue) (data : Bytes)
    (hjs : js p = .ok data) :
    MerkleTree.createRoot H js p =
      .ok (MerkleTree.computeRoot H
        ((if data = [] then [data] else MerkleTree.chunksOf 1024 data).map H)) := by
  unfold MerkleTree.createRoot MerkleTree.serializePayload
  rw [hjs]
  show Except.ok (MerkleTree.createRootFromBytes H data) = _
  unfold MerkleTree.createRootFromBytes
  rw [MerkleTree.chunkChunks_eq]

/-- Witness for C3 at the payload `"x"`: the modelled `jsonSafeStringify`
produces the three JSON bytes `"x"` and the pipeline hashes exactly them. -/
theorem C3_createRoot_json_chunks_witness :
    jsonSafeStringifyModel (.vstr [120]) = .ok [34, 120, 34] ∧
    MerkleTree.createRoot (fun l => 999 :: l) jsonSafeStringifyModel (.vstr [120]) =
      .ok (MerkleTree.computeRoot (fun l => 999 :: l)
        ((if ([34, 120, 34] : Bytes) = [] then [([34, 120, 34] : Bytes)]
          else MerkleTree.chunksOf 1024 [34, 120, 34]).map fun l => 999 :: l)) :=
  ⟨rfl, C3_createRoot_json_chunks (fun l => 999 :: l) jsonSafeStringifyModel
    (.vstr [120]) [34, 120, 34] rfl⟩

/-- Counterexample for C3 as stated: at the payload `"x"`, `createRoot` hashes
the JSON bytes `0x22 0x78 0x22`, not the TLV bytes `0x01 0x01 0x78` that the
spec-side pipeline (`createRootSpec`) hashes, so the two roots differ already
for the concrete digest function `H l = 999 :: l`. -/
theorem C3_counterexample :
    MerkleTree.createRoot (fun l => 999 :: l) jsonSafeStringifyModel (.vstr [120]) ≠
      .ok (MerkleTree.createRootSpec trivialCodec (fun l => 999 :: l) (.vstr [120])) := by
  intro hcon
  have h1 : MerkleTree.createRoot (fun l => 999 :: l) jsonSafeStringifyModel (.vstr [120]) =
      .ok [999, 34, 120, 34] := rfl
  have h2 : MerkleTree.createRootSpec trivialCodec (fun l => 999 :: l) (.vstr [120]) =
      [999, 1, 1, 120] := rfl
  rw [h1, h2] at hcon
  injection hcon with hcon
  exact absurd hcon (by decide)

theorem except_bind_ok {α β : Type} (a : α) (f : α → Except Err β) :
    (Except.ok a >>= f) = f a := rfl

theorem writeInt32VQL_pos (v : Int) : 0 < (writeInt32VQL v).length := by
  unfold writeInt32VQL
  split
  · simp
  · unfold vqlCore
    rename_i h
    cases hu : toUint32 v with
    | zero => exact absurd hu h
    | succ u =>
      simp only [vqlCoreF]
      rw [if_neg (by omega)]
      simp

theorem serializeV_ne_nil (C : Codec) (v : JSValue) : serializeV C v ≠ [] := by
  cases v <;> simp only [serializeV] <;> first
    | exact List.cons_ne_nil _ _
    | (split <;> exact List.cons_ne_nil _ _)

theorem serializeList_eq_nil (C : Codec) (xs : List JSValue) :
    serializeList C xs = [] ↔ xs = [] := by
  cases xs with
  | nil => simp [serializeList]
  | cons x xs =>
    simp only [serializeList, List.append_eq_nil]
    constructor
    · intro h
      exact absurd h.1 (serializeV_ne_nil C x)
    · intro h
      exact absurd h (List.cons_ne_nil _ _)

theorem listRead_exact (s rest : Bytes) (hne : s ++ rest ≠ []) :
    listRead (s ++ rest) ((s.length : Nat) : Int) = .ok (s, rest) := by
  unfold listRead
  rw [if_neg (by simpa [List.isEmpty_iff] using hne)]
  rw [if_neg (by omega)]
  have ht : ((s.length : Nat) : Int).toNat = s.length := rfl
  rw [ht, List.take_left, List.drop_left]

theorem wfVList_mem (C : Codec) :
    ∀ xs : List JSValue, wfVList C xs = true → ∀ x ∈ xs, wfV C x = true := by
  intro xs
  induction xs with
  | nil =>
    intro _ x hx
    exact absurd hx (List.not_mem_nil x)
  | cons y ys ih =>
    intro h x hx
    rw [show wfVList C (y :: ys) = (wfV C y && wfVList C ys) from rfl,
      Bool.and_eq_true] at h
    rcases List.mem_cons.mp hx with h1 | h1
    · subst h1
      exact h.1
    · exact ih h.2 x h1

theorem envelopesList_mem :
    ∀ (xs : List JSValue) (x : JSValue), x ∈ xs →
      ∀ m ∈ envelopes x, m ∈ envelopesList xs := by
  intro xs
  induction xs with
  | nil =>
    intro x hx
    exact absurd hx (List.not_mem_nil x)
  | cons y ys ih =>
    intro x hx m hm
    rw [show envelopesList (y :: ys) = envelopes y ++ envelopesList ys from rfl]
    rcases List.mem_cons.mp hx with h1 | h1
    · subst h1
      exact List.mem_append_left _ hm
    · exact List.mem_append_right _ (ih x h1 m hm)

theorem caseGsList_mem :
    ∀ (xs : List JSValue) (x : JSValue), x ∈ xs →
      ∀ u ∈ caseGs x, u ∈ caseGsList xs := by
  intro xs
  induction xs with
  | nil =>
    intro x hx
    exact absurd hx (List.not_mem_nil x)
  | cons y ys ih =>
    intro x hx u hu
    rw [show caseGsList (y :: ys) = caseGs y ++ caseGsList ys from rfl]
    rcases List.mem_cons.mp hx with h1 | h1
    · subst h1
      exact List.mem_append_left _ hu
    · exact List.mem_append_right _ (ih x h1 u hu)

theorem serializeList_length_mem (C : Codec) :
    ∀ (xs : List JSValue) (x : JSValue), x ∈ xs →
      (serializeV C x).length ≤ (serializeList C xs).length := by
  intro xs
  induction xs with
  | nil =>
    intro x hx
    exact absurd hx (List.not_mem_nil x)
  | cons y ys ih =>
    intro x hx
    rw [show serializeList C (y :: ys) = serializeV C y ++ serializeList C ys from rfl]
    rw [List.length_append]
    rcases List.mem_cons.mp hx with h1 | h1
    · subst h1
      omega
    · have := ih x h1
      omega

mutual

theorem reviveV_eq_narrowM (C : Codec) :
    ∀ m : MObj, wfM C m = true → reviveV C m = .ok (narrowM C m)
  | .mbin s, _ => rfl
  | .mstr s, _ => rfl
  | .mint n, _ => rfl
  | .mbool b, _ => rfl
  | .mnull, _ => rfl
  | .mdate iso, h => by
    have hs : (C.dateParse iso).isSome = true := h
    obtain ⟨ms, hms⟩ := Option.isSome_iff_exists.mp hs
    simp only [reviveV, narrowM]
    rw [hms]
    rfl
  | .mobj fields, h => by
    simp only [reviveV, narrowM]
    rw [reviveFields_eq_narrowMFields C fields h]
    rfl
  | .marr xs, h => by
    simp only [reviveV, narrowM]
    rw [reviveList_eq_narrowMList C xs h]
    rfl

theorem reviveList_eq_narrowMList (C : Codec) :
    ∀ xs : List MObj, wfMList C xs = true → reviveList C xs = .ok (narrowMList C xs)
  | [], _ => rfl
  | x :: xs, h => by
    have h2 : (wfM C x && wfMList C xs) = true := h
    rw [Bool.and_eq_true] at h2
    simp only [reviveList, narrowMList]
    rw [reviveV_eq_narrowM C x h2.1, except_bind_ok,
      reviveList_eq_narrowMList C xs h2.2]
    rfl

theorem reviveFields_eq_narrowMFields (C : Codec) :
    ∀ xs : List (Bytes × MObj), wfMFields C xs = true →
      reviveFields C xs = .ok (narrowMFields C xs)
  | [], _ => rfl
  | (k, v) :: xs, h => by
    have h2 : (wfM C v && wfMFields C xs) = true := h
    rw [Bool.and_eq_true] at h2
    simp only [reviveFields, narrowMFields]
    rw [reviveV_eq_narrowM C v h2.1, except_bind_ok,
      reviveFields_eq_narrowMFields C xs h2.2]
    rfl

end

theorem deserializeArr_ser (C : Codec) (fuel : Nat)
    (IH : ∀ (v : JSValue) (rest : Bytes),
      wfV C v = true →
      (∀ m ∈ envelopes v, C.parseM (C.stringifyM m) = .ok m) →
      (∀ u ∈ caseGs v, C.parseJson (C.stringifyJson u) = .ok u) →
      (serializeV C v).length < fuel →
      (rest = [] → serTail C v = true) →
      deserializeF C fuel (serializeV C v ++ rest) = .ok (narrowV C v, rest)) :
    ∀ (xs : List JSValue) (rest : Bytes),
      wfVList C xs = true →
      (∀ m ∈ envelopesList xs, C.parseM (C.stringifyM m) = .ok m) →
      (∀ u ∈ caseGsList xs, C.parseJson (C.stringifyJson u) = .ok u) →
      (∀ x ∈ xs, (serializeV C x).length < fuel) →
      (rest = [] → serTailList C xs = true) →
      deserializeArrAux (deserializeF C fuel) xs.length (serializeList C xs ++ rest) =
        .ok (narrowVList C xs, rest) := by
  intro xs
  induction xs with
  | nil =>
    intro rest _ _ _ _ _
    rfl
  | cons x xs ih =>
    intro rest hwf hM hG hlen htail
    have hwf2 : (wfV C x && wfVList C xs) = true := hwf
    rw [Bool.and_eq_true] at hwf2
    rw [show serializeList C (x :: xs) = serializeV C x ++ serializeList C xs from rfl,
      List.append_assoc, show (x :: xs).length = xs.length + 1 from rfl]
    simp only [deserializeArrAux]
    have hx : deserializeF C fuel (serializeV C x ++ (serializeList C xs ++ rest)) =
        .ok (narrowV C x, serializeList C xs ++ rest) := by
      apply IH x (serializeList C xs ++ rest) hwf2.1
        (fun m hm => hM m
          (by
            rw [show envelopesList (x :: xs) = envelopes x ++ envelopesList xs from rfl]
            exact List.mem_append_left _ hm))
        (fun u hu => hG u
          (by
            rw [show caseGsList (x :: xs) = caseGs x ++ caseGsList xs from rfl]
            exact List.mem_append_left _ hu))
        (hlen x (List.mem_cons_self x xs))
      intro hempty
      rw [List.append_eq_nil] at hempty
      have hxs : xs = [] := (serializeList_eq_nil C xs).mp hempty.1
      subst hxs
      exact htail hempty.2
    rw [hx]
    simp only [except_bind_ok]
    rw [ih rest hwf2.2
      (fun m hm => hM m
        (by
          rw [show envelopesList (x :: xs) = envelopes x ++ envelopesList xs from rfl]
          exact List.mem_append_right _ hm))
      (fun u hu => hG u
        (by
          rw [show caseGsList (x :: xs) = caseGs x ++ caseGsList xs from rfl]
          exact List.mem_append_right _ hu))
      (fun y hy => hlen y (List.mem_cons_of_mem x hy))
      (by
        intro hr
        have h3 := htail hr
        cases xs with
        | nil => rfl
        | cons y ys => exact h3)]
    rfl

theorem deserializeF_serializeV (C : Codec) :
    ∀ (fuel : Nat) (v : JSValue) (rest : Bytes),
      wfV C v = true →
      (∀ m ∈ envelopes v, C.parseM (C.stringifyM m) = .ok m) →
      (∀ u ∈ caseGs v, C.parseJson (C.stringifyJson u) = .ok u) →
      (serializeV C v).length < fuel →
      (rest = [] → serTail C v = true) →
      deserializeF C fuel (serializeV C v ++ rest) = .ok (narrowV C v, rest) := by
  intro fuel
  induction fuel with
  | zero =>
    intro v rest _ _ _ hlen _
    omega
  | succ fuel ih =>
    intro v rest hwf hM hG hlen htail
    have hne : rest = [] → serTail C v = true → serializeV C v = serializeV C v := fun _ _ => rfl
    cases v with
    | vnull => rfl
    | vundef => rfl
    | vbool b => exact absurd hwf (by simp [wfV])
    | vdict fs => exact absurd hwf (by simp [wfV])
    | vdate ms => exact absurd hwf (by simp [wfV])
    | vstr s =>
      have hs : (decide (s.length < 2 ^ 31) && s.all (· < 256)) = true := hwf
      rw [Bool.and_eq_true, decide_eq_true_eq] at hs
      have hne2 : s ++ rest ≠ [] := by
        intro hemp
        rw [List.append_eq_nil] at hemp
        have := htail hemp.2
        rw [hemp.1] at this
        simp [serTail] at this
      show deserializeF C (fuel + 1)
        ((1 :: (writeInt32VQL (s.length : Int) ++ s)) ++ rest) = _
      rw [List.cons_append, List.append_assoc]
      simp only [deserializeF]
      rw [readIntVQL_write_nat s.length hs.1 (s ++ rest)]
      simp only [except_bind_ok]
      rw [listRead_exact s rest hne2]
      simp only [except_bind_ok]
      rfl
    | vbuf b =>
      have hs : (decide (b.length < 2 ^ 31) && b.all (· < 256)) = true := hwf
      rw [Bool.and_eq_true, decide_eq_true_eq] at hs
      have hne2 : b ++ rest ≠ [] := by
        intro hemp
        rw [List.append_eq_nil] at hemp
        have := htail hemp.2
        rw [hemp.1] at this
        simp [serTail] at this
      show deserializeF C (fuel + 1)
        ((6 :: (writeInt32VQL (b.length : Int) ++ b)) ++ rest) = _
      rw [List.cons_append, List.append_assoc]
      simp only [deserializeF]
      rw [readIntVQL_write_nat b.length hs.1 (b ++ rest)]
      simp only [except_bind_ok]
      rw [listRead_exact b rest hne2]
      simp only [except_bind_ok]
      rfl
    | vnum n =>
      by_cases hint : toInt32 n = n
      · show deserializeF C (fuel + 1)
          ((if toInt32 n = n then 2 :: writeInt32VQL n
            else 3 :: (writeInt32VQL ((C.stringifyJson (.vnum n)).length : Int) ++
              C.stringifyJson (.vnum n))) ++ rest) = _
        rw [if_pos hint, List.cons_append]
        simp only [deserializeF]
        rw [readIntVQL_write n rest]
        simp only [except_bind_ok]
        rw [show narrowV C (.vnum n) = .vnum n from rfl, hint]
        rfl
      · have hs : (decide (-(2 ^ 53 : Int) ≤ n) && decide (n ≤ (2 ^ 53 : Int)) &&
            (decide (toInt32 n = n) ||
              decide ((C.stringifyJson (.vnum n)).length < 2 ^ 31))) = true := hwf
        rw [Bool.and_eq_true, Bool.or_eq_true] at hs
        have hlen31 : (C.stringifyJson (.vnum n)).length < 2 ^ 31 := by
          rcases hs.2 with h | h
          · rw [decide_eq_true_eq] at h
            exact absurd h hint
          · rwa [decide_eq_true_eq] at h
        have hg : C.parseJson (C.stringifyJson (.vnum n)) = .ok (.vnum n) := by
          apply hG
          show (.vnum n) ∈ (if toInt32 n = n then [] else [JSValue.vnum n])
          rw [if_neg hint]
          exact List.mem_singleton_self _
        have hne2 : C.stringifyJson (.vnum n) ++ rest ≠ [] := by
          intro hemp
          rw [List.append_eq_nil] at hemp
          have := htail hemp.2
          show False
          rw [show serTail C (.vnum n) =
            (decide (toInt32 n = n) || !(C.stringifyJson (.vnum n)).isEmpty) from rfl] at this
          rw [Bool.or_eq_true, decide_eq_true_eq] at this
          rcases this with h | h
          · exact hint h
          · rw [hemp.1] at h
            simp at h
        show deserializeF C (fuel + 1)
          ((if toInt32 n = n then 2 :: writeInt32VQL n
            else 3 :: (writeInt32VQL ((C.stringifyJson (.vnum n)).length : Int) ++
              C.stringifyJson (.vnum n))) ++ rest) = _
        rw [if_neg hint, List.cons_append, List.append_assoc]
        simp only [deserializeF]
        rw [readIntVQL_write_nat _ hlen31 _]
        simp only [except_bind_ok]
        rw [listRead_exact _ rest hne2]
        simp only [except_bind_ok]
        rw [hg]
        simp only [except_bind_ok]
        rw [show narrowV C (.vnum n) = .vnum n from rfl]
        rfl
    | vobj g =>
      have hlen31 : (C.stringifyJson (.vobj g)).length < 2 ^ 31 := by
        have hs : decide ((C.stringifyJson (.vobj g)).length < 2 ^ 31) = true := hwf
        rwa [decide_eq_true_eq] at hs
      have hg : C.parseJson (C.stringifyJson (.vobj g)) = .ok (.vobj g) :=
        hG _ (List.mem_singleton_self _)
      have hne2 : C.stringifyJson (.vobj g) ++ rest ≠ [] := by
        intro hemp
        rw [List.append_eq_nil] at hemp
        have := htail hemp.2
        rw [show serTail C (.vobj g) = !(C.stringifyJson (.vobj g)).isEmpty from rfl,
          hemp.1] at this
        simp at this
      show deserializeF C (fuel + 1)
        ((3 :: (writeInt32VQL ((C.stringifyJson (.vobj g)).length : Int) ++
          C.stringifyJson (.vobj g))) ++ rest) = _
      rw [List.cons_append, List.append_assoc]
      simp only [deserializeF]
      rw [readIntVQL_write_nat _ hlen31 _]
      simp only [except_bind_ok]
      rw [listRead_exact _ rest hne2]
      simp only [except_bind_ok]
      rw [hg]
      simp only [except_bind_ok]
      rfl
    | vmarshal m =>
      have hs : (wfM C m && decide ((C.stringifyM m).length < 2 ^ 31)) = true := hwf
      rw [Bool.and_eq_true, decide_eq_true_eq] at hs
      have hm : C.parseM (C.stringifyM m) = .ok m := hM m (List.mem_singleton_self _)
      have hne2 : C.stringifyM m ++ rest ≠ [] := by
        intro hemp
        rw [List.append_eq_nil] at hemp
        have := htail hemp.2
        rw [show serTail C (.vmarshal m) = !(C.stringifyM m).isEmpty from rfl,
          hemp.1] at this
        simp at this
      show deserializeF C (fuel + 1)
        ((5 :: (writeInt32VQL ((C.stringifyM m).length : Int) ++ C.stringifyM m)) ++ rest) = _
      rw [List.cons_append, List.append_assoc]
      simp only [deserializeF]
      rw [readIntVQL_write_nat _ hs.2 _]
      simp only [except_bind_ok]
      rw [listRead_exact _ rest hne2]
      simp only [except_bind_ok]
      rw [hm]
      simp only [except_bind_ok]
      rw [reviveV_eq_narrowM C m hs.1]
      simp only [except_bind_ok]
      rfl
    | varr xs =>
      have hs : (decide (xs.length < 2 ^ 31) && wfVList C xs) = true := hwf
      rw [Bool.and_eq_true, decide_eq_true_eq] at hs
      have hlen2 : ∀ x ∈ xs, (serializeV C x).length < fuel := by
        intro x hx
        have h1 := serializeList_length_mem C xs x hx
        have h2 := writeInt32VQL_pos ((xs.length : Nat) : Int)
        have h3 : (serializeV C (.varr xs)).length =
            1 + ((writeInt32VQL ((xs.length : Nat) : Int)).length +
              (serializeList C xs).length) := by
          show (4 :: (writeInt32VQL ((xs.length : Nat) : Int) ++ serializeList C xs)).length = _
          simp [List.length_append]
          omega
        rw [h3] at hlen
        omega
      show deserializeF C (fuel + 1)
        ((4 :: (writeInt32VQL ((xs.length : Nat) : Int) ++ serializeList C xs)) ++ rest) = _
      rw [List.cons_append, List.append_assoc]
      simp only [deserializeF]
      rw [readIntVQL_write_nat _ hs.1 _]
      simp only [except_bind_ok]
      rw [if_neg (by omega : ¬((xs.length : Nat) : Int) < 0)]
      rw [show (((xs.length : Nat) : Int)).toNat = xs.length from rfl]
      rw [deserializeArr_ser C fuel ih xs rest hs.2 hM hG hlen2 htail]
      simp only [except_bind_ok]
      rfl

/-- C7 (amended): for every value accepted by `serialize` whose serialized byte
stream does not end with a zero-length string/buffer/JSON body (`serTail`),
`deserialize (serialize v)` returns `v` modulo the §4.B narrowing rules
(`narrowV`): null/absent collapse to null, int32 integers round-trip under the
Uint tag, marshalled envelopes come back as their revived runtime values (Date
values surviving as Date), and arrays narrow elementwise; any tag byte above 6
fails with ERR_UNSUPPORTED_OPERATION.  The host JSON codec is assumed to
invert itself on the envelopes and case-G values occurring in `v`. -/
theorem C7_codec_roundtrip (C : Codec) (v : JSValue)
    (hwf : wfV C v = true)
    (hM : ∀ m ∈ envelopes v, C.parseM (C.stringifyM m) = .ok m)
    (hG : ∀ u ∈ caseGs v, C.parseJson (C.stringifyJson u) = .ok u)
    (htail : serTail C v = true) :
    deserialize C (serializeV C v) = .ok (narrowV C v) ∧
    (∀ (t : Nat) (l : Bytes), 6 < t →
      deserialize C (t :: l) = .error .unsupportedOperation) := by
  constructor
  · unfold deserialize
    have h := deserializeF_serializeV C ((serializeV C v).length + 1) v []
      hwf hM hG (by omega) (fun _ => htail)
    rw [List.append_nil] at h
    rw [h]
    rfl
  · intro t l ht
    show (deserializeF C ((t :: l).length + 1) (t :: l)).map Prod.fst = _
    rw [show (t :: l).length + 1 = l.length + 1 + 1 from by simp]
    simp only [deserializeF]
    rw [if_neg (by omega), if_neg (by omega), if_neg (by omega), if_neg (by omega),
      if_neg (by omega), if_neg (by omega), if_neg (by omega)]
    rfl

/-- Witness for C7 at the concrete value
`[null, marshal(String "a"), 5, "hi"]` with a concrete host-JSON codec that
inverts itself on the one envelope involved: the envelope comes back revived
as the string, everything else comes back unchanged, and an unknown tag byte
fails. -/
theorem C7_codec_roundtrip_witness :
    deserialize
      ⟨fun _ => [123, 125],
        fun s => if s = [123, 125] then .ok (.mstr [97]) else .error .unknownError,
        fun _ => [], fun _ => .error .unknownError, fun b => b, fun _ => none,
        fun _ => []⟩
      (serializeV
        ⟨fun _ => [123, 125],
          fun s => if s = [123, 125] then .ok (.mstr [97]) else .error .unknownError,
          fun _ => [], fun _ => .error .unknownError, fun b => b, fun _ => none,
          fun _ => []⟩
        (.varr [.vnull, .vmarshal (.mstr [97]), .vnum 5, .vstr [104, 105]])) =
      .ok (.varr [.vnull, .vstr [97], .vnum 5, .vstr [104, 105]]) ∧
    deserialize
      ⟨fun _ => [123, 125],
        fun s => if s = [123, 125] then .ok (.mstr [97]) else .error .unknownError,
        fun _ => [], fun _ => .error .unknownError, fun b => b, fun _ => none,
        fun _ => []⟩
      (9 :: [0]) = .error .unsupportedOperation := by
  have h := C7_codec_roundtrip
    ⟨fun _ => [123, 125],
      fun s => if s = [123, 125] then .ok (.mstr [97]) else .error .unknownError,
      fun _ => [], fun _ => .error .unknownError, fun b => b, fun _ => none,
      fun _ => []⟩
    (.varr [.vnull, .vmarshal (.mstr [97]), .vnum 5, .vstr [104, 105]])
    rfl
    (by
      intro m hm
      rw [show envelopes
        (.varr [.vnull, .vmarshal (.mstr [97]), .vnum 5, .vstr [104, 105]]) =
          [MObj.mstr [97]] from rfl] at hm
      rw [List.mem_singleton] at hm
      subst hm
      rfl)
    (by
      intro u hu
      rw [show caseGs
        (.varr [.vnull, .vmarshal (.mstr [97]), .vnum 5, .vstr [104, 105]]) =
          [] from rfl] at hu
      exact absurd hu (List.not_mem_nil u))
    rfl
  refine ⟨?_, h.2 9 [0] (by omega)⟩
  rw [h.1]
  rfl

/-- Counterexample for C7 as stated: the empty string is accepted by
`serialize` (two bytes: String tag, VQL length 0), but `deserialize` then
requests a zero-length read from an exhausted reader, which fails with
ERR_END_OF_STREAM instead of returning the empty string. -/
theorem C7_counterexample :
    serializeV trivialCodec (.vstr []) = [1, 0] ∧
    deserialize trivialCodec (serializeV trivialCodec (.vstr [])) =
      .error .endOfStream :=
  ⟨rfl, rfl⟩
